import Mathlib

/-!
Shallow embedding of the srsdb scheduling core (spec sections 3 and 4).

The repository ships only the test suite, the examples and the packaging
files; the core modules (knobs, FSRS database, Ebisu database) are not
present.  Every definition below is therefore modelled from the
specification, with the concrete constants (default knob values, state
codes, band boundaries) pinned down by the unit tests.  Timestamps are
rational numbers of hours; correctness percentages are rationals.
-/

/-- Modelled from the spec: error taxonomy of section 7.  Only
`InvalidInputError` is reachable from the operations embedded here. -/
inductive SrsError where
  | invalidInput
deriving DecidableEq, Repr

/-- Modelled from the spec: the default FSRS weight vector.  The spec fixes
only its length (17, section 3); the individual values are taken from the
FSRS reference parameter set and play no role in any claim. -/
def defaultFsrsW : List ℚ :=
  [0.4, 0.6, 2.4, 5.8, 4.93, 0.94, 0.86, 0.01, 1.49, 0.14, 0.94, 2.18,
   0.05, 0.34, 1.26, 0.29, 2.61]

/-- Modelled from the spec: FSRS configuration knobs (section 3).  Default
values are those asserted by the knobs tests: thresholds `(25, 50, 85)` and a
17-element weight vector. -/
structure FsrsKnobs where
  rating_thresholds : ℕ × ℕ × ℕ := (25, 50, 85)
  w : List ℚ := defaultFsrsW
deriving DecidableEq, Repr

/-- FsrsKnobs constructed without arguments, i.e. all defaults. -/
def defaultFsrsKnobs : FsrsKnobs := {}

/-- Modelled from the spec: Ebisu configuration knobs (section 3).  Default
values are those asserted by the knobs tests: half-life 24 hours, recall
threshold 0.5, target recall 0.5. -/
structure EbisuKnobs where
  default_half_life_hours : ℚ := 24
  recall_threshold : ℚ := 1/2
  target_recall : ℚ := 1/2
deriving DecidableEq, Repr

/-- EbisuKnobs constructed without arguments, i.e. all defaults. -/
def defaultEbisuKnobs : EbisuKnobs := {}

/-- Modelled from the spec: the Correctness Mapper for FSRS (section 4.1).
Partitions [0,100] into four half-open bands at the three thresholds; a
value equal to a threshold falls into the band that threshold opens. -/
def convert_correctness_to_rating (th : ℕ × ℕ × ℕ) (c : ℚ) : ℕ :=
  if c < th.1 then 1
  else if c < th.2.1 then 2
  else if c < th.2.2 then 3
  else 4

/-- Modelled from the spec: the FSRS discrete card states (section 4.2). -/
inductive FsrsState where
  | New
  | Learning
  | Review
  | Relearn
deriving DecidableEq, Repr

/-- Integer state codes as stored in the `fsrs_cards` table (the tests
assert code 2 for Review and 3 for Relearn). -/
def FsrsState.code : FsrsState → ℕ
  | .New => 0
  | .Learning => 1
  | .Review => 2
  | .Relearn => 3

/-- Modelled from the spec: an FSRS card record (section 3).  Timestamps
are rational hours. -/
structure FsrsCard where
  key : String
  state : FsrsState
  difficulty : ℚ
  stability : ℚ
  reps : ℕ
  lapses : ℕ
  due : ℚ
  lastReview : ℚ
deriving DecidableEq, Repr

/-- Modelled from the spec: an append-only FSRS review record (section 3). -/
structure FsrsReview where
  key : String
  timestamp : ℚ
  rating : ℕ
deriving DecidableEq, Repr

/-- The persisted FSRS state: the card table and the append-only review
table, in insertion order. -/
structure FsrsDb where
  cards : List FsrsCard
  reviews : List FsrsReview
deriving DecidableEq, Repr

/-- Modelled from the spec: the closed-form FSRS difficulty, stability,
graduation and interval formulas are an external, versioned specification
(section 9, explicitly not observable from this repository).  The state
machine is therefore parameterized over them; every claim proved below
holds for every choice of formulas. -/
structure FsrsFormulas where
  initDifficulty : ℕ → ℚ
  initStability : ℕ → ℚ
  nextDifficulty : ℚ → ℕ → ℚ
  nextStability : ℚ → ℚ → ℚ → ℕ → ℚ
  graduate : FsrsState → ℕ → FsrsState
  interval : FsrsState → ℚ → ℚ

/-- Look up the first record whose key matches, mirroring a primary-key
SELECT. -/
def findByKey {α : Type} (keyOf : α → String) (l : List α) (k : String) : Option α :=
  l.find? (fun x => keyOf x == k)

/-- Replace the first record with the same key, or append, mirroring an
SQL upsert on the primary key. -/
def upsertByKey {α : Type} (keyOf : α → String) (l : List α) (a : α) : List α :=
  match l with
  | [] => [a]
  | x :: xs => if keyOf x == keyOf a then a :: xs else x :: upsertByKey keyOf xs a

/-- Modelled from the spec: successor state of an FSRS answer (section 4.2).
Again always moves to Relearn; a successful rating moves to Review except
from Learning and Relearn, where the external graduation rules apply. -/
def fsrsNextState (F : FsrsFormulas) (st : FsrsState) (rating : ℕ) : FsrsState :=
  if rating = 1 then FsrsState.Relearn
  else
    match st with
    | FsrsState.Learning => F.graduate FsrsState.Learning rating
    | FsrsState.Relearn => F.graduate FsrsState.Relearn rating
    | _ => FsrsState.Review

/-- Modelled from the spec: the card produced by the first answer for a key
(section 4.2): reps 1, Review iff the rating is at least Good, lapses 1
exactly for Again, due derived from the interval formula. -/
def fsrsNewCard (F : FsrsFormulas) (key : String) (t : ℚ) (rating : ℕ) : FsrsCard :=
  let st := if 3 ≤ rating then FsrsState.Review else FsrsState.Relearn
  let s := F.initStability rating
  { key := key
    state := st
    difficulty := F.initDifficulty rating
    stability := s
    reps := 1
    lapses := if rating = 1 then 1 else 0
    due := t + F.interval st s
    lastReview := t }

/-- Modelled from the spec: a subsequent answer on an existing card
(section 4.2): reps increments unconditionally; Again increments lapses and
moves to Relearn; difficulty, stability and the interval come from the
external formulas applied to the elapsed time since the last review. -/
def fsrsAnswerCard (F : FsrsFormulas) (card : FsrsCard) (t : ℚ) (rating : ℕ) : FsrsCard :=
  let st := fsrsNextState F card.state rating
  let s := F.nextStability card.difficulty card.stability (t - card.lastReview) rating
  { card with
    state := st
    difficulty := F.nextDifficulty card.difficulty rating
    stability := s
    reps := card.reps + 1
    lapses := if rating = 1 then card.lapses + 1 else card.lapses
    due := t + F.interval st s
    lastReview := t }

/-- The state transformation of a valid FSRS answer: map correctness to a
rating, create or update the card, append one review record. -/
def fsrsApply (k : FsrsKnobs) (F : FsrsFormulas) (db : FsrsDb) (t : ℚ) (key : String)
    (c : ℚ) : FsrsDb :=
  let rating := convert_correctness_to_rating k.rating_thresholds c
  let card :=
    match findByKey FsrsCard.key db.cards key with
    | none => fsrsNewCard F key t rating
    | some old => fsrsAnswerCard F old t rating
  { cards := upsertByKey FsrsCard.key db.cards card
    reviews := db.reviews ++ [{ key := key, timestamp := t, rating := rating }] }

/-- Modelled from the spec: `answer` for the FSRS facade (section 4.4).
Correctness is validated before any state is touched; the whole update is
one atomic unit. -/
def fsrsAnswer (k : FsrsKnobs) (F : FsrsFormulas) (db : FsrsDb) (t : ℚ) (key : String)
    (c : ℚ) : Except SrsError FsrsDb :=
  if c < 0 ∨ 100 < c then Except.error SrsError.invalidInput
  else Except.ok (fsrsApply k F db t key c)

/-- The database state observable after an `answer` call: unchanged when the
call fails, the updated state when it succeeds. -/
def fsrsTry (k : FsrsKnobs) (F : FsrsFormulas) (db : FsrsDb) (t : ℚ) (key : String)
    (c : ℚ) : FsrsDb :=
  match fsrsAnswer k F db t key c with
  | Except.error _ => db
  | Except.ok db2 => db2

/-- Ordering of FSRS cards by due timestamp, used by `next`. -/
def dueBefore (a b : FsrsCard) : Prop := a.due ≤ b.due

instance : DecidableRel dueBefore :=
  fun a b => inferInstanceAs (Decidable (a.due ≤ b.due))

instance : IsTotal FsrsCard dueBefore :=
  ⟨fun a b => le_total a.due b.due⟩

instance : IsTrans FsrsCard dueBefore :=
  ⟨fun _ _ _ h1 h2 => le_trans h1 h2⟩

/-- The due cards at time `t`, sorted ascending by due timestamp (stable, so
ties keep insertion order), mirroring `SELECT ... WHERE due <= t ORDER BY
due`. -/
def FsrsDb.dueSorted (db : FsrsDb) (t : ℚ) : List FsrsCard :=
  List.insertionSort dueBefore (db.cards.filter (fun c => decide (c.due ≤ t)))

/-- Modelled from the spec: `next` for the FSRS facade (section 4.4): the
keys whose card is due at `t`, earliest due first. -/
def FsrsDb.next (db : FsrsDb) (t : ℚ) : List String :=
  (db.dueSorted t).map FsrsCard.key

/-- Minimum of a list of rationals, `none` on the empty list, mirroring
`SELECT MIN(due)`. -/
def minList : List ℚ → Option ℚ
  | [] => none
  | x :: xs =>
    some (match minList xs with
          | none => x
          | some m => min x m)

/-- Modelled from the spec: `next_due_date` for the FSRS facade
(section 4.4): the minimum stored due timestamp, absent when no cards
exist. -/
def fsrsNextDueDate (db : FsrsDb) : Option ℚ :=
  minList (db.cards.map FsrsCard.due)

/-- Modelled from the spec: an Ebisu card record (section 3): the Beta
shape parameters, the half-life in hours (column `t`), the review count and
the last review timestamp.  In this model the second shape parameter stays
a natural number (it is initialized to 2 and the update rebalances back to
2), which keeps the Beta-moment computation exact over the rationals. -/
structure EbisuCard where
  key : String
  alpha : ℚ
  beta : ℕ
  halfLife : ℚ
  totalReviews : ℕ
  lastReview : ℚ
deriving DecidableEq, Repr

/-- Modelled from the spec: an append-only Ebisu review record (section 3),
with the recall probability at review time as the algorithm-specific
snapshot. -/
structure EbisuReview where
  key : String
  timestamp : ℚ
  success : ℚ
  recallProbability : ℚ
deriving DecidableEq, Repr

/-- The persisted Ebisu state: the card table and the append-only review
table, in insertion order. -/
structure EbisuDb where
  cards : List EbisuCard
  reviews : List EbisuReview
deriving DecidableEq, Repr

/-- Modelled from the spec: predicted recall after `d` half-lives
(section 4.3), the mean of the Beta(`a`, `b`) recall model decayed over `d`
half-lives.  For a natural second parameter this moment is the exact finite
product of `(a + k) / (a + d + k)` over `k < b`. -/
def ebisuPredict (a d : ℚ) : ℕ → ℚ
  | 0 => 1
  | b + 1 => ebisuPredict a d b * ((a + b) / (a + d + b))

/-- Modelled from the spec: posterior predicted recall after `d` further
half-lives, given an observation with success weight `s` made `de`
half-lives after the model was fit (section 4.3).  The two binary branches
are the exact Beta posterior predictives (success multiplies the prior by
the recall likelihood, failure by its complement); a fractional success
mixes them with weights `s` and `1 - s`. -/
def postPredict (a : ℚ) (b : ℕ) (de s d : ℚ) : ℚ :=
  s * ebisuPredict (a + de) d b +
    (1 - s) * ((ebisuPredict a d b - ebisuPredict a (d + de) b) /
      (1 - ebisuPredict a de b))

/-- Bisection step for the half-life re-fit (section 9 allows any
numerically stable root-finder): keeps the root of `f = target` inside
`[lo, hi]` for an antitone `f` and returns the final midpoint. -/
def bisect (f : ℚ → ℚ) (target lo hi : ℚ) : ℕ → ℚ
  | 0 => (lo + hi) / 2
  | n + 1 =>
    if f ((lo + hi) / 2) ≤ target then bisect f target lo ((lo + hi) / 2) n
    else bisect f target ((lo + hi) / 2) hi n

/-- Doubling search for an upper bracket of the root of `f = target` for an
antitone `f`. -/
def findHigh (f : ℚ → ℚ) (target : ℚ) : ℕ → ℚ → ℚ
  | 0, hi => hi
  | n + 1, hi => if f hi ≤ target then hi else findHigh f target n (2 * hi)

/-- Modelled from the spec: the factor by which the half-life is rescaled,
the root of `f d = target` for an antitone `f` with `f 0 = 1` (section 4.3:
re-fit the half-life so that predicted recall there equals the target).
The root is bracketed in `(0, 1)` or `(1, hi)` by comparing `f 1` with the
target, then bisected. -/
def solveDelta (f : ℚ → ℚ) (target : ℚ) : ℚ :=
  if f 1 = target then 1
  else if f 1 < target then bisect f target 0 1 30
  else bisect f target 1 (findHigh f target 40 2) 30

/-- Modelled from the spec: initialization of a New Ebisu card
(section 4.3): shape 2, 2 and the configured default half-life.  The last
review timestamp starts at the answer time itself, so the first answer sees
zero elapsed time. -/
def ebisuInitCard (k : EbisuKnobs) (key : String) (t : ℚ) : EbisuCard :=
  { key := key
    alpha := 2
    beta := 2
    halfLife := k.default_half_life_hours
    totalReviews := 0
    lastReview := t }

/-- Modelled from the spec: elapsed half-lives used by the Bayesian update.
When no positive elapsed time is available (the first ever answer, or a
replay at the last review timestamp) the no-prior-review baseline of one
half-life applies (section 4.3), which keeps the required update directions
unconditional. -/
def elapsedHalfLives (card : EbisuCard) (t : ℚ) : ℚ :=
  if card.halfLife ≤ 0 then 1
  else if t ≤ card.lastReview then 1
  else (t - card.lastReview) / card.halfLife

/-- Elapsed half-lives used for the recall snapshot written to the review
record: zero when no time has passed, so a brand-new card records certain
recall. -/
def snapshotHalfLives (card : EbisuCard) (t : ℚ) : ℚ :=
  if card.halfLife ≤ 0 then 0
  else if t ≤ card.lastReview then 0
  else (t - card.lastReview) / card.halfLife

/-- Modelled from the spec: the Bayesian update of one card (section 4.3):
posterior-update the shape parameters with the observed outcome at the
elapsed time, re-fit the half-life so predicted recall at the new half-life
equals the target recall, and rebalance the shape back to (2, 2) so the
stored half-life is a true half-life of the stored model. -/
def ebisuAnswerCard (k : EbisuKnobs) (card : EbisuCard) (t s : ℚ) : EbisuCard :=
  let de := elapsedHalfLives card t
  let factor := solveDelta (postPredict card.alpha card.beta de s) k.target_recall
  { key := card.key
    alpha := 2
    beta := 2
    halfLife := card.halfLife * factor
    totalReviews := card.totalReviews + 1
    lastReview := t }

/-- The state transformation of a valid Ebisu answer: rescale correctness
to a success value, snapshot the recall probability, create or update the
card, append one review record. -/
def ebisuApply (k : EbisuKnobs) (db : EbisuDb) (t : ℚ) (key : String) (c : ℚ) : EbisuDb :=
  let s := c / 100
  let card := (findByKey EbisuCard.key db.cards key).getD (ebisuInitCard k key t)
  let rp := ebisuPredict card.alpha (snapshotHalfLives card t) card.beta
  let card2 := ebisuAnswerCard k card t s
  { cards := upsertByKey EbisuCard.key db.cards card2
    reviews := db.reviews ++
      [{ key := key, timestamp := t, success := s, recallProbability := rp }] }

/-- Modelled from the spec: `answer` for the Ebisu facade (section 4.4).
Correctness is validated before any state is touched; the whole update is
one atomic unit. -/
def ebisuAnswer (k : EbisuKnobs) (db : EbisuDb) (t : ℚ) (key : String) (c : ℚ) :
    Except SrsError EbisuDb :=
  if c < 0 ∨ 100 < c then Except.error SrsError.invalidInput
  else Except.ok (ebisuApply k db t key c)

/-- The database state observable after an Ebisu `answer` call: unchanged
when the call fails, the updated state when it succeeds. -/
def ebisuTry (k : EbisuKnobs) (db : EbisuDb) (t : ℚ) (key : String) (c : ℚ) : EbisuDb :=
  match ebisuAnswer k db t key c with
  | Except.error _ => db
  | Except.ok db2 => db2

/-- Modelled from the spec: the computed due timestamp of an Ebisu card
(section 4.3): the first timestamp at which predicted recall drops to the
recall threshold, solved from the decay model by the same root-finder. -/
def ebisuDue (k : EbisuKnobs) (card : EbisuCard) : ℚ :=
  card.lastReview +
    card.halfLife * solveDelta (fun d => ebisuPredict card.alpha d card.beta) k.recall_threshold

/-- Modelled from the spec: `next_due_date` for the Ebisu facade
(section 4.4): the minimum computed due timestamp, absent when no cards
exist. -/
def ebisuNextDueDate (k : EbisuKnobs) (db : EbisuDb) : Option ℚ :=
  minList (db.cards.map (ebisuDue k))

/-- Predicted recall of a stored model at elapsed time `dt` hours since the
last review (section 4.3): the decayed Beta mean at `dt / halfLife`
half-lives. -/
def ebisuRecallAt (a : ℚ) (b : ℕ) (h dt : ℚ) : ℚ :=
  ebisuPredict a (dt / h) b

/-! ## Helper lemmas -/

theorem findByKey_upsertByKey {α : Type} (keyOf : α → String) (l : List α) (a : α) :
    findByKey keyOf (upsertByKey keyOf l a) (keyOf a) = some a := by
  induction l with
  | nil => simp [findByKey, upsertByKey]
  | cons x xs ih =>
    rw [upsertByKey]
    by_cases h : (keyOf x == keyOf a) = true
    · rw [if_pos h]; simp [findByKey]
    · rw [if_neg h, findByKey, List.find?]
      rw [Bool.not_eq_true] at h
      rw [h]
      exact ih

theorem findByKey_key {α : Type} (keyOf : α → String) (l : List α) (k : String) (a : α)
    (h : findByKey keyOf l k = some a) : keyOf a = k := by
  have hp := List.find?_some h
  simpa using hp

theorem findByKey_upsert_key {α : Type} (keyOf : α → String) (l : List α) (a : α)
    (k : String) (hk : keyOf a = k) :
    findByKey keyOf (upsertByKey keyOf l a) k = some a := by
  subst hk
  exact findByKey_upsertByKey keyOf l a

theorem fsrsNextState_again (F : FsrsFormulas) (st : FsrsState) :
    fsrsNextState F st 1 = FsrsState.Relearn := rfl

theorem minList_eq_none_iff (l : List ℚ) : minList l = none ↔ l = [] := by
  cases l <;> simp [minList]

theorem minList_min (l : List ℚ) (d : ℚ) (h : minList l = some d) :
    d ∈ l ∧ ∀ x ∈ l, d ≤ x := by
  induction l generalizing d with
  | nil => simp [minList] at h
  | cons x xs ih =>
    rw [minList] at h
    cases hxs : minList xs with
    | none =>
      rw [hxs] at h
      simp only [Option.some.injEq] at h
      have hnil : xs = [] := (minList_eq_none_iff xs).mp hxs
      subst hnil
      subst h
      simp
    | some m =>
      rw [hxs] at h
      simp only [Option.some.injEq] at h
      obtain ⟨hm, hall⟩ := ih m hxs
      subst h
      constructor
      · rcases le_total x m with hxm | hmx
        · rw [min_eq_left hxm]
          exact List.mem_cons_self x xs
        · rw [min_eq_right hmx]
          exact List.mem_cons_of_mem x hm
      · intro y hy
        rcases List.mem_cons.mp hy with hyx | hy2
        · rw [hyx]
          exact min_le_left x m
        · exact le_trans (min_le_right x m) (hall y hy2)

theorem ebisuPredict_zero (a d : ℚ) : ebisuPredict a d 0 = 1 := rfl

theorem ebisuPredict_succ (a d : ℚ) (b : ℕ) :
    ebisuPredict a d (b + 1) = ebisuPredict a d b * ((a + b) / (a + d + b)) := rfl

theorem ebisuPredict_pos (a d : ℚ) (b : ℕ) (ha : 0 < a) (hd : 0 ≤ d) :
    0 < ebisuPredict a d b := by
  induction b with
  | zero => norm_num [ebisuPredict]
  | succ n ih =>
    rw [ebisuPredict]
    have hn : (0 : ℚ) ≤ (n : ℚ) := Nat.cast_nonneg n
    exact mul_pos ih (div_pos (by linarith) (by linarith))

theorem ebisuPredict_one (a : ℚ) (b : ℕ) (ha : 0 < a) :
    ebisuPredict a 1 b = a / (a + b) := by
  induction b with
  | zero =>
    rw [ebisuPredict_zero]
    rw [Nat.cast_zero, add_zero, div_self (ne_of_gt ha)]
  | succ n ih =>
    rw [ebisuPredict_succ, ih]
    have hn : (0 : ℚ) ≤ (n : ℚ) := Nat.cast_nonneg n
    have h1 : (0 : ℚ) < (a + n) * (a + 1 + n) := by nlinarith
    have h2 : (0 : ℚ) < a + ((n : ℚ) + 1) := by linarith
    push_cast
    rw [div_mul_div_comm, div_eq_div_iff (ne_of_gt h1) (ne_of_gt h2)]
    ring

theorem ebisuPredict_succ_lt (a d1 d2 : ℚ) (ha : 0 < a) (h1 : 0 ≤ d1) (h12 : d1 < d2) :
    ∀ b : ℕ, ebisuPredict a d2 (b + 1) < ebisuPredict a d1 (b + 1) := by
  intro b
  induction b with
  | zero =>
    rw [ebisuPredict_succ a d2 0, ebisuPredict_succ a d1 0, ebisuPredict_zero,
      ebisuPredict_zero, Nat.cast_zero, add_zero, add_zero, add_zero,
      one_mul, one_mul]
    exact div_lt_div_of_pos_left ha (by linarith) (by linarith)
  | succ n ih =>
    rw [ebisuPredict_succ a d2 (n + 1), ebisuPredict_succ a d1 (n + 1)]
    have hn : (0 : ℚ) ≤ ((n : ℚ) + 1) := by positivity
    have hpos2 : 0 < ebisuPredict a d2 (n + 1) := ebisuPredict_pos a d2 (n + 1) ha (by linarith)
    have hfac : (a + ((n : ℚ) + 1)) / (a + d2 + ((n : ℚ) + 1)) <
        (a + ((n : ℚ) + 1)) / (a + d1 + ((n : ℚ) + 1)) :=
      div_lt_div_of_pos_left (by linarith) (by linarith) (by linarith)
    have hfacpos : 0 < (a + ((n : ℚ) + 1)) / (a + d2 + ((n : ℚ) + 1)) :=
      div_pos (by linarith) (by linarith)
    push_cast
    exact mul_lt_mul'' ih hfac (le_of_lt hpos2) (le_of_lt hfacpos)

theorem ebisuPredict_lt (a d1 d2 : ℚ) (b : ℕ) (ha : 0 < a) (hb : 1 ≤ b)
    (h1 : 0 ≤ d1) (h12 : d1 < d2) :
    ebisuPredict a d2 b < ebisuPredict a d1 b := by
  obtain ⟨n, rfl⟩ : ∃ n, b = n + 1 := ⟨b - 1, by omega⟩
  exact ebisuPredict_succ_lt a d1 d2 ha h1 h12 n

theorem bisect_bounds (f : ℚ → ℚ) (target : ℚ) (n : ℕ) :
    ∀ lo hi : ℚ, lo < hi →
      lo < bisect f target lo hi n ∧ bisect f target lo hi n < hi := by
  induction n with
  | zero =>
    intro lo hi h
    rw [bisect]
    constructor <;> linarith
  | succ m ih =>
    intro lo hi h
    rw [bisect]
    by_cases hc : f ((lo + hi) / 2) ≤ target
    · rw [if_pos hc]
      have hm := ih lo ((lo + hi) / 2) (by linarith)
      exact ⟨hm.1, by linarith [hm.2]⟩
    · rw [if_neg hc]
      have hm := ih ((lo + hi) / 2) hi (by linarith)
      exact ⟨by linarith [hm.1], hm.2⟩

theorem findHigh_ge (f : ℚ → ℚ) (target : ℚ) (n : ℕ) :
    ∀ hi : ℚ, 2 ≤ hi → 2 ≤ findHigh f target n hi := by
  induction n with
  | zero =>
    intro hi h
    rw [findHigh]
    exact h
  | succ m ih =>
    intro hi h
    rw [findHigh]
    by_cases hc : f hi ≤ target
    · rw [if_pos hc]; exact h
    · rw [if_neg hc]
      exact ih (2 * hi) (by linarith)

theorem solveDelta_of_lt (f : ℚ → ℚ) (target : ℚ) (h : f 1 < target) :
    0 < solveDelta f target ∧ solveDelta f target < 1 := by
  rw [solveDelta, if_neg (ne_of_lt h), if_pos h]
  exact bisect_bounds f target 30 0 1 one_pos

theorem solveDelta_of_gt (f : ℚ → ℚ) (target : ℚ) (h : target < f 1) :
    1 < solveDelta f target := by
  rw [solveDelta, if_neg (ne_of_gt h), if_neg (not_lt.mpr (le_of_lt h))]
  have h2 : (2 : ℚ) ≤ findHigh f target 40 2 := findHigh_ge f target 40 2 le_rfl
  exact (bisect_bounds f target 30 1 _ (by linarith)).1

theorem ebisuPredict_two_two_val (x : ℚ) :
    ebisuPredict 2 x 2 = 6 / ((2 + x) * (3 + x)) := by
  rw [ebisuPredict_succ 2 x 1, ebisuPredict_succ 2 x 0, ebisuPredict_zero, one_mul,
    div_mul_div_comm]
  push_cast
  norm_num
  ring_nf

theorem postPredict_one_gt (de : ℚ) (hde : 0 < de) : 1 / 2 < postPredict 2 2 de 1 1 := by
  have hS : ebisuPredict (2 + de) 1 2 = (2 + de) / (4 + de) := by
    rw [ebisuPredict_one (2 + de) 2 (by linarith)]
    push_cast
    congr 1
    ring
  rw [postPredict]
  norm_num
  rw [hS, lt_div_iff (by linarith : (0 : ℚ) < 4 + de)]
  linarith

theorem postPredict_zero_lt (de : ℚ) (hde : 0 < de) : postPredict 2 2 de 0 1 < 1 / 2 := by
  have h23 : (0 : ℚ) < (2 + de) * (3 + de) := by nlinarith
  have h34 : (0 : ℚ) < (3 + de) * (4 + de) := by nlinarith
  have hP1 : ebisuPredict 2 1 2 = 1 / 2 := by
    rw [ebisuPredict_one 2 2 (by norm_num)]
    norm_num
  have hPde : ebisuPredict 2 de 2 = 6 / ((2 + de) * (3 + de)) := ebisuPredict_two_two_val de
  have hP1de : ebisuPredict 2 (1 + de) 2 = 6 / ((3 + de) * (4 + de)) := by
    rw [ebisuPredict_two_two_val (1 + de)]
    congr 1
    ring
  have hD : 0 < 1 - 6 / ((2 + de) * (3 + de)) := by
    rw [sub_pos, div_lt_one h23]
    nlinarith
  have key : 6 / ((2 + de) * (3 + de)) / 2 < 6 / ((3 + de) * (4 + de)) := by
    rw [div_div, div_lt_div_iff (by nlinarith) h34]
    nlinarith
  rw [postPredict]
  norm_num
  rw [hP1, hP1de, hPde, div_lt_iff hD]
  linarith [key]

theorem elapsedHalfLives_pos (card : EbisuCard) (t : ℚ) (hh : 0 < card.halfLife) :
    0 < elapsedHalfLives card t := by
  rw [elapsedHalfLives, if_neg (not_le.mpr hh)]
  by_cases ht : t ≤ card.lastReview
  · rw [if_pos ht]
    norm_num
  · rw [if_neg ht]
    exact div_pos (by linarith [not_le.mp ht]) hh

theorem ebisuAnswer_found (k : EbisuKnobs) (db : EbisuDb) (t : ℚ) (key : String)
    (card : EbisuCard) (c : ℚ) (hfind : findByKey EbisuCard.key db.cards key = some card)
    (h0 : 0 ≤ c) (h1 : c ≤ 100) :
    ebisuAnswer k db t key c = Except.ok
      ⟨upsertByKey EbisuCard.key db.cards (ebisuAnswerCard k card t (c / 100)),
        db.reviews ++
        [⟨key, t, c / 100,
          ebisuPredict card.alpha (snapshotHalfLives card t) card.beta⟩]⟩ := by
  rw [ebisuAnswer, if_neg (by push_neg; exact ⟨h0, h1⟩)]
  simp only [ebisuApply, hfind, Option.getD_some]

theorem ebisuAnswer_new (k : EbisuKnobs) (db : EbisuDb) (t : ℚ) (key : String)
    (c : ℚ) (hfind : findByKey EbisuCard.key db.cards key = none)
    (h0 : 0 ≤ c) (h1 : c ≤ 100) :
    ebisuAnswer k db t key c = Except.ok
      ⟨upsertByKey EbisuCard.key db.cards
          (ebisuAnswerCard k (ebisuInitCard k key t) t (c / 100)),
        db.reviews ++
        [⟨key, t, c / 100,
          ebisuPredict (ebisuInitCard k key t).alpha
            (snapshotHalfLives (ebisuInitCard k key t) t) (ebisuInitCard k key t).beta⟩]⟩ := by
  rw [ebisuAnswer, if_neg (by push_neg; exact ⟨h0, h1⟩)]
  simp only [ebisuApply, hfind, Option.getD_none]

theorem fsrsAnswer_found (k : FsrsKnobs) (F : FsrsFormulas) (db : FsrsDb) (t : ℚ)
    (key : String) (card : FsrsCard) (c : ℚ)
    (hfind : findByKey FsrsCard.key db.cards key = some card)
    (h0 : 0 ≤ c) (h1 : c ≤ 100) :
    fsrsAnswer k F db t key c = Except.ok
      ⟨upsertByKey FsrsCard.key db.cards
          (fsrsAnswerCard F card t (convert_correctness_to_rating k.rating_thresholds c)),
        db.reviews ++
        [⟨key, t, convert_correctness_to_rating k.rating_thresholds c⟩]⟩ := by
  rw [fsrsAnswer, if_neg (by push_neg; exact ⟨h0, h1⟩)]
  simp only [fsrsApply, hfind]

theorem fsrsAnswer_new (k : FsrsKnobs) (F : FsrsFormulas) (db : FsrsDb) (t : ℚ)
    (key : String) (c : ℚ)
    (hfind : findByKey FsrsCard.key db.cards key = none)
    (h0 : 0 ≤ c) (h1 : c ≤ 100) :
    fsrsAnswer k F db t key c = Except.ok
      ⟨upsertByKey FsrsCard.key db.cards
          (fsrsNewCard F key t (convert_correctness_to_rating k.rating_thresholds c)),
        db.reviews ++
        [⟨key, t, convert_correctness_to_rating k.rating_thresholds c⟩]⟩ := by
  rw [fsrsAnswer, if_neg (by push_neg; exact ⟨h0, h1⟩)]
  simp only [fsrsApply, hfind]

/-! ## Claim theorems -/

/-- C9: FsrsKnobs constructed without arguments defaults to rating
thresholds (25, 50, 85) and a 17-element weight vector, and EbisuKnobs
defaults to a 24-hour half-life, recall threshold 0.5 and target recall
0.5. -/
theorem default_knobs_values :
    defaultFsrsKnobs.rating_thresholds = (25, 50, 85) ∧
    defaultFsrsKnobs.w.length = 17 ∧
    defaultEbisuKnobs.default_half_life_hours = 24 ∧
    defaultEbisuKnobs.recall_threshold = 1 / 2 ∧
    defaultEbisuKnobs.target_recall = 1 / 2 :=
  ⟨rfl, rfl, rfl, rfl, rfl⟩

/-- C3: for every timestamp, key and correctness outside [0, 100], `answer`
on either facade fails with InvalidInputError and the failure is atomic:
the observable database state afterwards is exactly the prior state, so no
card and no review record exists for a previously-unseen key and no
existing state is mutated. -/
theorem answer_out_of_range_atomic (kF : FsrsKnobs) (F : FsrsFormulas) (kE : EbisuKnobs)
    (dbF : FsrsDb) (dbE : EbisuDb) (t : ℚ) (key : String) (c : ℚ)
    (hc : c < 0 ∨ 100 < c) :
    fsrsAnswer kF F dbF t key c = Except.error SrsError.invalidInput ∧
    ebisuAnswer kE dbE t key c = Except.error SrsError.invalidInput ∧
    fsrsTry kF F dbF t key c = dbF ∧
    ebisuTry kE dbE t key c = dbE := by
  have h1 : fsrsAnswer kF F dbF t key c = Except.error SrsError.invalidInput := by
    rw [fsrsAnswer, if_pos hc]
  have h2 : ebisuAnswer kE dbE t key c = Except.error SrsError.invalidInput := by
    rw [ebisuAnswer, if_pos hc]
  refine ⟨h1, h2, ?_, ?_⟩
  · rw [fsrsTry, h1]
  · rw [ebisuTry, h2]

/-- C3 witness: the theorem instantiated at correctness 101 on empty
databases. -/
theorem answer_out_of_range_atomic_witness :
    fsrsAnswer defaultFsrsKnobs ⟨fun _ => 5, fun _ => 1, fun d _ => d, fun _ s _ _ => s,
        fun st _ => st, fun _ _ => 24⟩ ⟨[], []⟩ 0 "q1" 101 =
      Except.error SrsError.invalidInput ∧
    ebisuAnswer defaultEbisuKnobs ⟨[], []⟩ 0 "q1" 101 =
      Except.error SrsError.invalidInput ∧
    fsrsTry defaultFsrsKnobs ⟨fun _ => 5, fun _ => 1, fun d _ => d, fun _ s _ _ => s,
        fun st _ => st, fun _ _ => 24⟩ ⟨[], []⟩ 0 "q1" 101 = ⟨[], []⟩ ∧
    ebisuTry defaultEbisuKnobs ⟨[], []⟩ 0 "q1" 101 = ⟨[], []⟩ :=
  answer_out_of_range_atomic defaultFsrsKnobs
    ⟨fun _ => 5, fun _ => 1, fun d _ => d, fun _ s _ _ => s, fun st _ => st, fun _ _ => 24⟩
    defaultEbisuKnobs ⟨[], []⟩ ⟨[], []⟩ 0 "q1" 101 (Or.inr (by norm_num))

/-- C2: the first FSRS answer for a key creates a card with reps 1, state
Review exactly when the mapped rating is at least Good (3) and Relearn
otherwise, and lapses 1 exactly when the rating is Again (1). -/
theorem fsrs_first_answer_initializes (k : FsrsKnobs) (F : FsrsFormulas) (db : FsrsDb)
    (t : ℚ) (key : String) (c : ℚ)
    (hfind : findByKey FsrsCard.key db.cards key = none) (h0 : 0 ≤ c) (h1 : c ≤ 100) :
    ∃ db2 card, fsrsAnswer k F db t key c = Except.ok db2 ∧
      findByKey FsrsCard.key db2.cards key = some card ∧
      card.reps = 1 ∧
      card.state = (if 3 ≤ convert_correctness_to_rating k.rating_thresholds c
        then FsrsState.Review else FsrsState.Relearn) ∧
      card.lapses = (if convert_correctness_to_rating k.rating_thresholds c = 1
        then 1 else 0) := by
  refine ⟨_, fsrsNewCard F key t (convert_correctness_to_rating k.rating_thresholds c),
    fsrsAnswer_new k F db t key c hfind h0 h1, ?_, rfl, rfl, rfl⟩
  exact findByKey_upsert_key FsrsCard.key db.cards _ key rfl

/-- C2 witness: answering an unseen key with correctness 100 under default
knobs yields a card with reps 1, state Review and lapses 0. -/
theorem fsrs_first_answer_initializes_witness :
    ∃ db2 card, fsrsAnswer defaultFsrsKnobs
        ⟨fun _ => 5, fun _ => 1, fun d _ => d, fun _ s _ _ => s, fun st _ => st,
          fun _ _ => 24⟩ ⟨[], []⟩ 0 "q1" 100 = Except.ok db2 ∧
      findByKey FsrsCard.key db2.cards "q1" = some card ∧
      card.reps = 1 ∧
      card.state = (if 3 ≤ convert_correctness_to_rating
          defaultFsrsKnobs.rating_thresholds 100 then FsrsState.Review
        else FsrsState.Relearn) ∧
      card.lapses = (if convert_correctness_to_rating
          defaultFsrsKnobs.rating_thresholds 100 = 1 then 1 else 0) :=
  fsrs_first_answer_initializes defaultFsrsKnobs
    ⟨fun _ => 5, fun _ => 1, fun d _ => d, fun _ s _ _ => s, fun st _ => st, fun _ _ => 24⟩
    ⟨[], []⟩ 0 "q1" 100 rfl (by norm_num) (by norm_num)

/-- C1: for every correctness value in [0, 100] and valid threshold triple
t1 < t2 < t3, the correctness-to-rating mapping is total with no gaps or
overlaps: it returns 1 exactly on [0, t1), 2 exactly on [t1, t2), 3 exactly
on [t2, t3) and 4 exactly on [t3, 100], so a value equal to a threshold
falls into the band that threshold opens; with the default thresholds
(25, 50, 85) the boundary values 24, 25, 49, 50, 84, 85, 100 map to
1, 2, 2, 3, 3, 4, 4. -/
theorem correctness_rating_bands (t1 t2 t3 : ℕ) (c : ℚ)
    (h12 : t1 < t2) (h23 : t2 < t3) (hc0 : 0 ≤ c) (hc1 : c ≤ 100) :
    ((convert_correctness_to_rating (t1, t2, t3) c = 1 ↔ c < t1) ∧
     (convert_correctness_to_rating (t1, t2, t3) c = 2 ↔ (t1 : ℚ) ≤ c ∧ c < t2) ∧
     (convert_correctness_to_rating (t1, t2, t3) c = 3 ↔ (t2 : ℚ) ≤ c ∧ c < t3) ∧
     (convert_correctness_to_rating (t1, t2, t3) c = 4 ↔ (t3 : ℚ) ≤ c) ∧
     1 ≤ convert_correctness_to_rating (t1, t2, t3) c ∧
     convert_correctness_to_rating (t1, t2, t3) c ≤ 4) ∧
    (convert_correctness_to_rating defaultFsrsKnobs.rating_thresholds 24 = 1 ∧
     convert_correctness_to_rating defaultFsrsKnobs.rating_thresholds 25 = 2 ∧
     convert_correctness_to_rating defaultFsrsKnobs.rating_thresholds 49 = 2 ∧
     convert_correctness_to_rating defaultFsrsKnobs.rating_thresholds 50 = 3 ∧
     convert_correctness_to_rating defaultFsrsKnobs.rating_thresholds 84 = 3 ∧
     convert_correctness_to_rating defaultFsrsKnobs.rating_thresholds 85 = 4 ∧
     convert_correctness_to_rating defaultFsrsKnobs.rating_thresholds 100 = 4) := by
  have hq12 : (t1 : ℚ) < t2 := by exact_mod_cast h12
  have hq23 : (t2 : ℚ) < t3 := by exact_mod_cast h23
  have e : convert_correctness_to_rating (t1, t2, t3) c =
      if c < (t1 : ℚ) then 1 else if c < (t2 : ℚ) then 2
      else if c < (t3 : ℚ) then 3 else 4 := rfl
  constructor
  · rcases lt_or_le c t1 with h1 | h1
    · have hr : convert_correctness_to_rating (t1, t2, t3) c = 1 := by
        rw [e, if_pos h1]
      rw [hr]
      norm_num
      repeat' apply And.intro
      all_goals intros
      all_goals linarith
    · rcases lt_or_le c t2 with h2 | h2
      · have hr : convert_correctness_to_rating (t1, t2, t3) c = 2 := by
          rw [e, if_neg (not_lt.mpr h1), if_pos h2]
        rw [hr]
        norm_num
        repeat' apply And.intro
        all_goals intros
        all_goals linarith
      · rcases lt_or_le c t3 with h3 | h3
        · have hr : convert_correctness_to_rating (t1, t2, t3) c = 3 := by
            rw [e, if_neg (not_lt.mpr h1), if_neg (not_lt.mpr h2), if_pos h3]
          rw [hr]
          norm_num
          repeat' apply And.intro
          all_goals intros
          all_goals linarith
        · have hr : convert_correctness_to_rating (t1, t2, t3) c = 4 := by
            rw [e, if_neg (not_lt.mpr h1), if_neg (not_lt.mpr h2),
              if_neg (not_lt.mpr h3)]
          rw [hr]
          norm_num
          repeat' apply And.intro
          all_goals intros
          all_goals linarith
  · norm_num [convert_correctness_to_rating, defaultFsrsKnobs]

/-- C1 witness: the band characterization instantiated at the default
thresholds and the boundary value c = 50. -/
theorem correctness_rating_bands_witness :
    ((convert_correctness_to_rating (25, 50, 85) 50 = 1 ↔ (50 : ℚ) < 25) ∧
     (convert_correctness_to_rating (25, 50, 85) 50 = 2 ↔
       (25 : ℚ) ≤ 50 ∧ (50 : ℚ) < 50) ∧
     (convert_correctness_to_rating (25, 50, 85) 50 = 3 ↔
       (50 : ℚ) ≤ 50 ∧ (50 : ℚ) < 85) ∧
     (convert_correctness_to_rating (25, 50, 85) 50 = 4 ↔ (85 : ℚ) ≤ 50) ∧
     1 ≤ convert_correctness_to_rating (25, 50, 85) 50 ∧
     convert_correctness_to_rating (25, 50, 85) 50 ≤ 4) ∧
    (convert_correctness_to_rating defaultFsrsKnobs.rating_thresholds 24 = 1 ∧
     convert_correctness_to_rating defaultFsrsKnobs.rating_thresholds 25 = 2 ∧
     convert_correctness_to_rating defaultFsrsKnobs.rating_thresholds 49 = 2 ∧
     convert_correctness_to_rating defaultFsrsKnobs.rating_thresholds 50 = 3 ∧
     convert_correctness_to_rating defaultFsrsKnobs.rating_thresholds 84 = 3 ∧
     convert_correctness_to_rating defaultFsrsKnobs.rating_thresholds 85 = 4 ∧
     convert_correctness_to_rating defaultFsrsKnobs.rating_thresholds 100 = 4) := by
  have h := correctness_rating_bands 25 50 85 50 (by norm_num) (by norm_num)
    (by norm_num) (by norm_num)
  exact_mod_cast h

/-- C7: on every FSRS answer, reps increments by exactly one (a first
answer creates the card with reps 1), and whenever the mapped rating is
Again (1) the resulting state is Relearn and lapses increments by exactly
one (from 0 on a first answer). -/
theorem fsrs_answer_counters (k : FsrsKnobs) (F : FsrsFormulas) (db : FsrsDb)
    (t : ℚ) (key : String) (c : ℚ) (h0 : 0 ≤ c) (h1 : c ≤ 100) :
    (∀ card, findByKey FsrsCard.key db.cards key = some card →
      ∃ db2 card2, fsrsAnswer k F db t key c = Except.ok db2 ∧
        findByKey FsrsCard.key db2.cards key = some card2 ∧
        card2.reps = card.reps + 1 ∧
        (convert_correctness_to_rating k.rating_thresholds c = 1 →
          card2.state = FsrsState.Relearn ∧ card2.lapses = card.lapses + 1)) ∧
    (findByKey FsrsCard.key db.cards key = none →
      ∃ db2 card2, fsrsAnswer k F db t key c = Except.ok db2 ∧
        findByKey FsrsCard.key db2.cards key = some card2 ∧
        card2.reps = 0 + 1 ∧
        (convert_correctness_to_rating k.rating_thresholds c = 1 →
          card2.state = FsrsState.Relearn ∧ card2.lapses = 0 + 1)) := by
  constructor
  · intro card hfind
    refine ⟨_, fsrsAnswerCard F card t (convert_correctness_to_rating k.rating_thresholds c),
      fsrsAnswer_found k F db t key card c hfind h0 h1, ?_, rfl, ?_⟩
    · exact findByKey_upsert_key FsrsCard.key db.cards _ key
        (findByKey_key FsrsCard.key db.cards key card hfind)
    · intro hr
      constructor
      · show fsrsNextState F card.state (convert_correctness_to_rating
          k.rating_thresholds c) = FsrsState.Relearn
        simp only [hr]
        exact fsrsNextState_again F card.state
      · show (if convert_correctness_to_rating k.rating_thresholds c = 1
            then card.lapses + 1 else card.lapses) = card.lapses + 1
        rw [if_pos hr]
  · intro hfind
    refine ⟨_, fsrsNewCard F key t (convert_correctness_to_rating k.rating_thresholds c),
      fsrsAnswer_new k F db t key c hfind h0 h1, ?_, rfl, ?_⟩
    · exact findByKey_upsert_key FsrsCard.key db.cards _ key rfl
    · intro hr
      constructor
      · show (if 3 ≤ convert_correctness_to_rating k.rating_thresholds c
            then FsrsState.Review else FsrsState.Relearn) = FsrsState.Relearn
        rw [hr]
        norm_num
      · show (if convert_correctness_to_rating k.rating_thresholds c = 1
            then 1 else 0) = 0 + 1
        rw [if_pos hr]

/-- C7 witness: answering an existing card with correctness 0 (rating
Again) moves it to Relearn and bumps reps and lapses by one. -/
theorem fsrs_answer_counters_witness :
    (∀ card, findByKey FsrsCard.key
        [(⟨"q1", FsrsState.Review, 5, 1, 1, 0, 24, 0⟩ : FsrsCard)] "q1" =
          some card →
      ∃ db2 card2, fsrsAnswer defaultFsrsKnobs
          ⟨fun _ => 5, fun _ => 1, fun d _ => d, fun _ s _ _ => s, fun st _ => st,
            fun _ _ => 24⟩
          ⟨[(⟨"q1", FsrsState.Review, 5, 1, 1, 0, 24, 0⟩ : FsrsCard)], []⟩
          48 "q1" 0 = Except.ok db2 ∧
        findByKey FsrsCard.key db2.cards "q1" = some card2 ∧
        card2.reps = card.reps + 1 ∧
        (convert_correctness_to_rating defaultFsrsKnobs.rating_thresholds 0 = 1 →
          card2.state = FsrsState.Relearn ∧ card2.lapses = card.lapses + 1)) ∧
    (findByKey FsrsCard.key
        [(⟨"q1", FsrsState.Review, 5, 1, 1, 0, 24, 0⟩ : FsrsCard)] "q1" =
          none →
      ∃ db2 card2, fsrsAnswer defaultFsrsKnobs
          ⟨fun _ => 5, fun _ => 1, fun d _ => d, fun _ s _ _ => s, fun st _ => st,
            fun _ _ => 24⟩
          ⟨[(⟨"q1", FsrsState.Review, 5, 1, 1, 0, 24, 0⟩ : FsrsCard)], []⟩
          48 "q1" 0 = Except.ok db2 ∧
        findByKey FsrsCard.key db2.cards "q1" = some card2 ∧
        card2.reps = 0 + 1 ∧
        (convert_correctness_to_rating defaultFsrsKnobs.rating_thresholds 0 = 1 →
          card2.state = FsrsState.Relearn ∧ card2.lapses = 0 + 1)) :=
  fsrs_answer_counters defaultFsrsKnobs
    ⟨fun _ => 5, fun _ => 1, fun d _ => d, fun _ s _ _ => s, fun st _ => st, fun _ _ => 24⟩
    ⟨[(⟨"q1", FsrsState.Review, 5, 1, 1, 0, 24, 0⟩ : FsrsCard)], []⟩
    48 "q1" 0 (by norm_num) (by norm_num)

/-- C10: the first Ebisu answer for a previously-unseen key appends a
review record whose recall probability snapshot is exactly 1 (in
particular at least 0.9): with no prior model, recall at review time is
treated as certain. -/
theorem ebisu_first_review_recall_certain (k : EbisuKnobs) (db : EbisuDb) (t : ℚ)
    (key : String) (c : ℚ) (hfind : findByKey EbisuCard.key db.cards key = none)
    (h0 : 0 ≤ c) (h1 : c ≤ 100) :
    ∃ db2 r, ebisuAnswer k db t key c = Except.ok db2 ∧
      db2.reviews = db.reviews ++ [r] ∧
      r.recallProbability = 1 ∧ (9 / 10 : ℚ) ≤ r.recallProbability := by
  refine ⟨_, ⟨key, t, c / 100, ebisuPredict (ebisuInitCard k key t).alpha
      (snapshotHalfLives (ebisuInitCard k key t) t) (ebisuInitCard k key t).beta⟩,
    ebisuAnswer_new k db t key c hfind h0 h1, rfl, ?_⟩
  have hs : snapshotHalfLives (ebisuInitCard k key t) t = 0 := by
    rw [snapshotHalfLives]
    by_cases hh : (ebisuInitCard k key t).halfLife ≤ 0
    · rw [if_pos hh]
    · rw [if_neg hh,
        if_pos (show t ≤ (ebisuInitCard k key t).lastReview from le_refl t)]
  have hrp : ebisuPredict (ebisuInitCard k key t).alpha
      (snapshotHalfLives (ebisuInitCard k key t) t) (ebisuInitCard k key t).beta = 1 := by
    rw [hs]
    show ebisuPredict 2 0 2 = 1
    rw [ebisuPredict_succ 2 0 1, ebisuPredict_succ 2 0 0, ebisuPredict_zero]
    norm_num
  exact ⟨hrp, by rw [hrp]; norm_num⟩

/-- C10 witness: the first answer for key q1 on an empty Ebisu database
records recall probability 1. -/
theorem ebisu_first_review_recall_certain_witness :
    ∃ db2 r, ebisuAnswer defaultEbisuKnobs ⟨[], []⟩ 0 "q1" 80 = Except.ok db2 ∧
      db2.reviews = ([] : List EbisuReview) ++ [r] ∧
      r.recallProbability = 1 ∧ (9 / 10 : ℚ) ≤ r.recallProbability :=
  ebisu_first_review_recall_certain defaultEbisuKnobs ⟨[], []⟩ 0 "q1" 80 rfl
    (by norm_num) (by norm_num)

/-- C4: for every stored FSRS card set and timestamp t, `next t` returns
exactly the keys of the cards with due at most t (the due cards as a list
are a permutation of the filtered card table and the key list is their
image), sorted ascending by due, and is the empty list whenever no card is
due. -/
theorem fsrs_next_exact_sorted (db : FsrsDb) (t : ℚ) :
    db.next t = (db.dueSorted t).map FsrsCard.key ∧
    List.Sorted dueBefore (db.dueSorted t) ∧
    (db.dueSorted t).Perm (db.cards.filter (fun c => decide (c.due ≤ t))) ∧
    (∀ key, key ∈ db.next t ↔ ∃ c ∈ db.cards, c.key = key ∧ c.due ≤ t) ∧
    ((∀ c ∈ db.cards, t < c.due) → db.next t = []) := by
  refine ⟨rfl, List.sorted_insertionSort dueBefore _,
    List.perm_insertionSort dueBefore _, ?_, ?_⟩
  · intro key
    rw [FsrsDb.next, List.mem_map]
    constructor
    · rintro ⟨c, hc, rfl⟩
      have hc2 := (List.perm_insertionSort dueBefore
        (db.cards.filter (fun c => decide (c.due ≤ t)))).mem_iff.mp hc
      rw [List.mem_filter] at hc2
      exact ⟨c, hc2.1, rfl, of_decide_eq_true hc2.2⟩
    · rintro ⟨c, hcl, hkey, hdue⟩
      refine ⟨c, ?_, hkey⟩
      exact (List.perm_insertionSort dueBefore _).mem_iff.mpr
        (List.mem_filter.mpr ⟨hcl, decide_eq_true hdue⟩)
  · intro hall
    have hfe : db.cards.filter (fun c => decide (c.due ≤ t)) = [] := by
      rw [List.filter_eq_nil_iff]
      intro c hc
      simp only [decide_eq_true_eq]
      exact not_le.mpr (hall c hc)
    rw [FsrsDb.next, FsrsDb.dueSorted, hfe]
    rfl

/-- C4 witness: on an empty card table nothing is due and `next` returns
the empty list. -/
theorem fsrs_next_exact_sorted_witness :
    FsrsDb.next ⟨[], []⟩ 0 = [] :=
  (fsrs_next_exact_sorted ⟨[], []⟩ 0).2.2.2.2 (by intro c hc; cases hc)

/-- C8: `next_due_date` returns none exactly when no cards exist, and any
returned timestamp is the minimum due timestamp across all stored cards:
for FSRS the minimum of the stored due fields, for Ebisu the minimum of
the computed per-card due timestamps. -/
theorem next_due_date_minimum (kE : EbisuKnobs) (dbF : FsrsDb) (dbE : EbisuDb) :
    (fsrsNextDueDate dbF = none ↔ dbF.cards = []) ∧
    (∀ d, fsrsNextDueDate dbF = some d →
      d ∈ dbF.cards.map FsrsCard.due ∧ ∀ x ∈ dbF.cards.map FsrsCard.due, d ≤ x) ∧
    (ebisuNextDueDate kE dbE = none ↔ dbE.cards = []) ∧
    (∀ d, ebisuNextDueDate kE dbE = some d →
      d ∈ dbE.cards.map (ebisuDue kE) ∧ ∀ x ∈ dbE.cards.map (ebisuDue kE), d ≤ x) := by
  refine ⟨?_, ?_, ?_, ?_⟩
  · rw [fsrsNextDueDate, minList_eq_none_iff, List.map_eq_nil_iff]
  · intro d hd
    exact minList_min _ d hd
  · rw [ebisuNextDueDate, minList_eq_none_iff, List.map_eq_nil_iff]
  · intro d hd
    exact minList_min _ d hd

/-- C8 witness: with one FSRS card due at 10, `next_due_date` yields a
member of the due list that bounds every due from below. -/
theorem next_due_date_minimum_witness :
    10 ∈ (⟨[⟨"a", FsrsState.Review, 5, 1, 1, 0, 10, 0⟩], []⟩ : FsrsDb).cards.map
        FsrsCard.due ∧
    ∀ x ∈ (⟨[⟨"a", FsrsState.Review, 5, 1, 1, 0, 10, 0⟩], []⟩ : FsrsDb).cards.map
        FsrsCard.due, 10 ≤ x :=
  (next_due_date_minimum defaultEbisuKnobs
    ⟨[⟨"a", FsrsState.Review, 5, 1, 1, 0, 10, 0⟩], []⟩ ⟨[], []⟩).2.1 10 rfl

/-- C6: for a fixed Ebisu model the predicted recall is strictly
decreasing in the elapsed time, and at elapsed time equal to the half-life
it equals the distribution mean a / (a + b), the model's fixed point
(exactly 1/2 for the default balanced shape 2, 2). -/
theorem ebisu_recall_monotone_fixed_point (a : ℚ) (b : ℕ) (h dt1 dt2 : ℚ)
    (ha : 0 < a) (hb : 1 ≤ b) (hh : 0 < h) (h1 : 0 ≤ dt1) (h12 : dt1 < dt2) :
    ebisuRecallAt a b h dt2 < ebisuRecallAt a b h dt1 ∧
    ebisuRecallAt a b h h = a / (a + b) := by
  constructor
  · rw [ebisuRecallAt, ebisuRecallAt]
    exact ebisuPredict_lt a (dt1 / h) (dt2 / h) b ha hb
      (div_nonneg h1 (le_of_lt hh)) ((div_lt_div_right hh).mpr h12)
  · rw [ebisuRecallAt, div_self (ne_of_gt hh)]
    exact ebisuPredict_one a b ha

/-- C6 witness: for the default model (2, 2, 24 hours), recall after 48
hours is below recall now, and recall at 24 hours is the fixed point
2 / (2 + 2) = 1/2. -/
theorem ebisu_recall_monotone_fixed_point_witness :
    ebisuRecallAt 2 2 24 48 < ebisuRecallAt 2 2 24 0 ∧
    ebisuRecallAt 2 2 24 24 = 2 / (2 + ((2 : ℕ) : ℚ)) :=
  ebisu_recall_monotone_fixed_point 2 2 24 0 48 (by norm_num) (by norm_num)
    (by norm_num) (by norm_num) (by norm_num)

/-- C5: for every stored Ebisu card (balanced shape 2, 2 with a positive
half-life, the invariant shape of this model) under target recall 1/2, an
answer with success 0 (correctness 0) strictly shrinks the stored
half-life and an answer with success 1 (correctness 100) strictly grows
it. -/
theorem ebisu_halflife_directions (k : EbisuKnobs) (db : EbisuDb) (t : ℚ) (key : String)
    (card : EbisuCard) (hfind : findByKey EbisuCard.key db.cards key = some card)
    (ha : card.alpha = 2) (hb : card.beta = 2) (hh : 0 < card.halfLife)
    (htr : k.target_recall = 1 / 2) :
    (∃ db2 card2, ebisuAnswer k db t key 0 = Except.ok db2 ∧
      findByKey EbisuCard.key db2.cards key = some card2 ∧
      card2.halfLife < card.halfLife) ∧
    (∃ db2 card2, ebisuAnswer k db t key 100 = Except.ok db2 ∧
      findByKey EbisuCard.key db2.cards key = some card2 ∧
      card.halfLife < card2.halfLife) := by
  have hde : 0 < elapsedHalfLives card t := elapsedHalfLives_pos card t hh
  constructor
  · refine ⟨_, ebisuAnswerCard k card t (0 / 100),
      ebisuAnswer_found k db t key card 0 hfind (le_refl 0) (by norm_num), ?_, ?_⟩
    · exact findByKey_upsert_key EbisuCard.key db.cards _ key
        (findByKey_key EbisuCard.key db.cards key card hfind)
    · show card.halfLife * solveDelta (postPredict card.alpha card.beta
          (elapsedHalfLives card t) (0 / 100)) k.target_recall < card.halfLife
      have h0 : (0 : ℚ) / 100 = 0 := by norm_num
      rw [h0, ha, hb, htr]
      have hlt := (solveDelta_of_lt (postPredict 2 2 (elapsedHalfLives card t) 0) (1 / 2)
        (postPredict_zero_lt (elapsedHalfLives card t) hde)).2
      exact mul_lt_of_lt_one_right hh hlt
  · refine ⟨_, ebisuAnswerCard k card t (100 / 100),
      ebisuAnswer_found k db t key card 100 hfind (by norm_num) (le_refl 100), ?_, ?_⟩
    · exact findByKey_upsert_key EbisuCard.key db.cards _ key
        (findByKey_key EbisuCard.key db.cards key card hfind)
    · show card.halfLife < card.halfLife * solveDelta (postPredict card.alpha card.beta
          (elapsedHalfLives card t) (100 / 100)) k.target_recall
      have h100 : (100 : ℚ) / 100 = 1 := by norm_num
      rw [h100, ha, hb, htr]
      have hgt := solveDelta_of_gt (postPredict 2 2 (elapsedHalfLives card t) 1) (1 / 2)
        (postPredict_one_gt (elapsedHalfLives card t) hde)
      exact (lt_mul_iff_one_lt_right hh).mpr hgt

/-- C5 witness: a stored card (2, 2, 24 hours) answered 12 hours later
shrinks its half-life below 24 on failure and grows it above 24 on
success. -/
theorem ebisu_halflife_directions_witness :
    (∃ db2 card2, ebisuAnswer defaultEbisuKnobs ⟨[⟨"q1", 2, 2, 24, 1, 0⟩], []⟩ 12 "q1" 0 =
        Except.ok db2 ∧
      findByKey EbisuCard.key db2.cards "q1" = some card2 ∧
      card2.halfLife < 24) ∧
    (∃ db2 card2, ebisuAnswer defaultEbisuKnobs ⟨[⟨"q1", 2, 2, 24, 1, 0⟩], []⟩ 12 "q1"
        100 = Except.ok db2 ∧
      findByKey EbisuCard.key db2.cards "q1" = some card2 ∧
      24 < card2.halfLife) :=
  ebisu_halflife_directions defaultEbisuKnobs ⟨[⟨"q1", 2, 2, 24, 1, 0⟩], []⟩ 12 "q1"
    ⟨"q1", 2, 2, 24, 1, 0⟩ rfl rfl rfl (by norm_num) rfl

theorem solveDelta_pos (f : ℚ → ℚ) (target : ℚ) : 0 < solveDelta f target := by
  rw [solveDelta]
  by_cases h1 : f 1 = target
  · rw [if_pos h1]
    norm_num
  · rw [if_neg h1]
    by_cases h2 : f 1 < target
    · rw [if_pos h2]
      exact (bisect_bounds f target 30 0 1 one_pos).1
    · rw [if_neg h2]
      have hhi := findHigh_ge f target 40 2 le_rfl
      have hb := (bisect_bounds f target 30 1 _ (by linarith)).1
      linarith

/-- Every Ebisu update leaves the card in the invariant shape assumed by
the half-life direction theorem: balanced shape (2, 2) with a positive
half-life. -/
theorem ebisuAnswerCard_invariant (k : EbisuKnobs) (card : EbisuCard) (t s : ℚ)
    (hh : 0 < card.halfLife) :
    (ebisuAnswerCard k card t s).alpha = 2 ∧ (ebisuAnswerCard k card t s).beta = 2 ∧
    0 < (ebisuAnswerCard k card t s).halfLife := by
  refine ⟨rfl, rfl, ?_⟩
  show 0 < card.halfLife * solveDelta (postPredict card.alpha card.beta
    (elapsedHalfLives card t) s) k.target_recall
  exact mul_pos hh (solveDelta_pos _ _)
